import Mathlib

/-!
Verification of the path-addressed JSON read/write engine in
src/features/modals/NodeModal/index.tsx.

The embedding models the JavaScript functions of that file over a tagged
JSON value type.  JavaScript property access on plain JSON data is modelled
faithfully, including the coercions the runtime performs on own data
properties:
* a numeric segment applied to an object accesses the property named by its
  decimal spelling;
* a canonical numeric-string key applied to an array accesses the element at
  that index (array indices are string-keyed own properties);
* an index applied to a string accesses the character at that position, and
  spreading a string enumerates its characters as indexed own properties;
* assigning a property to a primitive (number, boolean, string) or to null
  throws a TypeError in strict mode (the file is an ES module, hence strict);
  a fallible write is modelled with Option, none meaning the call throws.

The embedding is exact on the own-data fragment: accesses whose key is a
plain data key of JSON values.  Prototype members and exotic built-in
properties (the length of arrays and strings, the prototype accessor,
inherited methods such as toString or push) behave differently in the
runtime: a read of such a key that is absent as own data yields the exotic
or inherited value there, and an assignment can coerce the array length or
mutate the prototype.  Those accesses are outside the modelled fragment,
and every universally quantified theorem whose paths range over arbitrary
string keys carries the hypothesis that its key segments avoid the
reservedKeys list (a superset of the exotic and inherited names), inside
which the definitions below agree with the runtime access for access.
JSON numbers are modelled as integers (no claim is about non-integral
numerics) and strings as sequences of characters.
-/

/-- Modelled from the spec: a path segment (the element type of the missing
NodeData path type from src/types/graph): a non-negative integer array index
or a string object key. -/
inductive Seg where
  | idx : Nat → Seg
  | key : String → Seg
deriving DecidableEq, Repr

/-- A JavaScript value as it can appear while running the NodeModal code on
JSON data: the JSON constructors, the JavaScript undefined (which the code
uses for absence and which array writes can pad holes with), and, on arrays,
the non-index own string properties that bracket assignment can attach. -/
inductive JValue where
  | null  : JValue
  | undef : JValue
  | bool  : Bool → JValue
  | num   : Int → JValue
  | str   : String → JValue
  | arr   : List JValue → List (String × JValue) → JValue
  | obj   : List (String × JValue) → JValue
deriving Repr

/-- First-occurrence association lookup, the behaviour of reading an own
property from an object. -/
def assocGet (l : List (String × JValue)) (k : String) : Option JValue :=
  match l with
  | [] => none
  | (k1, v1) :: t => if k1 = k then some v1 else assocGet t k

/-- Property assignment on an object: update the first occurrence in place,
or append a new property at the end (JavaScript insertion order). -/
def assocSet (l : List (String × JValue)) (k : String) (v : JValue) :
    List (String × JValue) :=
  match l with
  | [] => [(k, v)]
  | (k1, v1) :: t => if k1 = k then (k1, v) :: t else (k1, v1) :: assocSet t k v

/-- Decimal value of a digit string continued from an accumulator; none when
a non-digit appears. -/
def digitsVal : List Char → Nat → Option Nat
  | [], acc => some acc
  | c :: t, acc =>
      if c.isDigit then digitsVal t (acc * 10 + (c.toNat - 48)) else none

/-- A string is a canonical array index when it is the decimal spelling
(without leading zeros) of a natural number below 2^32 - 1; such a key
applied to an array addresses the element at that index. -/
def canonIndex (k : String) : Option Nat :=
  match k.data with
  | [] => none
  | ['0'] => some 0
  | c :: t =>
      if c.isDigit ∧ c ≠ '0' then
        match digitsVal t (c.toNat - 48) with
        | some n => if n < 4294967295 then some n else none
        | none => none
      else none

/-- Array element assignment: within bounds it replaces the element; beyond
the current length the runtime extends the array, reading the new holes as
undefined. -/
def listSet (xs : List JValue) (i : Nat) (v : JValue) : List JValue :=
  if i < xs.length then xs.set i v
  else xs ++ List.replicate (i - xs.length) JValue.undef ++ [v]

/-- Own-data property read, the meaning of cur[seg] in the source for a JSON
value cur; absence is the JavaScript undefined.  Exact for non-reserved
segments (see reservedKeys): on a reserved key that is absent as own data
the runtime would surface the exotic length or an inherited member instead,
and theorems quantifying over key segments exclude those. -/
def jsGet (c : JValue) (s : Seg) : JValue :=
  match c, s with
  | JValue.arr xs _, Seg.idx i => (xs.get? i).getD JValue.undef
  | JValue.arr xs ps, Seg.key k =>
      match canonIndex k with
      | some i => (xs.get? i).getD JValue.undef
      | none => (assocGet ps k).getD JValue.undef
  | JValue.obj kvs, Seg.key k => (assocGet kvs k).getD JValue.undef
  | JValue.obj kvs, Seg.idx i => (assocGet kvs (Nat.repr i)).getD JValue.undef
  | JValue.str t, Seg.idx i =>
      match t.data.get? i with
      | some ch => JValue.str (String.singleton ch)
      | none => JValue.undef
  | JValue.str t, Seg.key k =>
      match canonIndex k with
      | some i =>
          match t.data.get? i with
          | some ch => JValue.str (String.singleton ch)
          | none => JValue.undef
      | none => JValue.undef
  | _, _ => JValue.undef

/-- The value is null or undefined, the guard condition of the resolve
walk. -/
def isNullish : JValue → Bool
  | JValue.null => true
  | JValue.undef => true
  | _ => false

/-- The value is the JavaScript undefined, the creation condition of the
write loop. -/
def isUndef : JValue → Bool
  | JValue.undef => true
  | _ => false

/-- getValueAtPath from the source: walk the segments, returning undefined as
soon as the current value is undefined or null, otherwise indexing into it.
The guard for an absent or empty path returning the document itself is the
empty-list case. -/
def getValueAtPath (c : JValue) (path : List Seg) : JValue :=
  match path with
  | [] => c
  | s :: rest =>
      if isNullish c then JValue.undef else getValueAtPath (jsGet c s) rest

/-- Property read as the write loop performs it: reading cur[seg] on null or
undefined itself throws a TypeError (none); on any other value it yields the
own-data property or undefined. -/
def jsRead (c : JValue) (s : Seg) : Option JValue :=
  if isNullish c then none else some (jsGet c s)

/-- Property assignment cur[seg] = v; none models the strict-mode TypeError
raised when cur is a primitive or null.  Exact for non-reserved segments
(see reservedKeys): assigning the reserved array length coerces and resizes
in the runtime and assigning the prototype accessor mutates the prototype,
so theorems quantifying over key segments exclude reserved ones. -/
def jsSetProp (c : JValue) (s : Seg) (v : JValue) : Option JValue :=
  match c, s with
  | JValue.arr xs ps, Seg.idx i => some (JValue.arr (listSet xs i v) ps)
  | JValue.arr xs ps, Seg.key k =>
      match canonIndex k with
      | some i => some (JValue.arr (listSet xs i v) ps)
      | none => some (JValue.arr xs (assocSet ps k v))
  | JValue.obj kvs, Seg.key k => some (JValue.obj (assocSet kvs k v))
  | JValue.obj kvs, Seg.idx i => some (JValue.obj (assocSet kvs (Nat.repr i) v))
  | _, _ => none

/-- The shallow copy the source takes of the top-level container:
Array.isArray(obj) gives a spread into a fresh array (elements shared,
non-index properties dropped), anything else an object spread, which copies
the own enumerable properties: all entries for an object, the indexed
characters for a string, nothing for the remaining primitives. -/
def jsClone (c : JValue) : JValue :=
  match c with
  | JValue.arr xs _ => JValue.arr xs []
  | JValue.obj kvs => JValue.obj kvs
  | JValue.str t =>
      JValue.obj (t.data.enum.map
        (fun p => (Nat.repr p.1, JValue.str (String.singleton p.2))))
  | _ => JValue.obj []

/-- The container the write loop creates for a missing intermediate
position: an array when the next segment is a number, an object
otherwise. -/
def freshFor : Seg → JValue
  | Seg.idx _ => JValue.arr [] []
  | Seg.key _ => JValue.obj []

/-- The body of the write loop of setValueAtPath, acting on the current node
content.  In a tree-shaped document, mutating a child in place is replacing
it, so the loop denotes: on the last segment assign the value; otherwise read
the segment, create a fresh container when the read gives undefined, descend,
and the node ends up with the descended child content at that segment.  none
models a thrown TypeError. -/
def mutSet (c : JValue) (path : List Seg) (v : JValue) : Option JValue :=
  match path with
  | [] => some v
  | [s] => jsSetProp c s v
  | s :: q :: rest =>
      match jsRead c s with
      | none => none
      | some w =>
          if isUndef w then
            match jsSetProp c s (freshFor q) with
            | none => none
            | some c1 =>
                match mutSet (freshFor q) (q :: rest) v with
                | none => none
                | some ch => jsSetProp c1 s ch
          else
            match mutSet w (q :: rest) v with
            | none => none
            | some ch => jsSetProp c s ch

/-- setValueAtPath from the source: an absent or empty path returns the new
value itself; otherwise the top level is shallow-copied and the write loop
runs from the copy; the copy is returned.  none models the strict-mode
TypeError the loop raises when it assigns through a primitive or null. -/
def setValueAtPath (d : JValue) (path : List Seg) (v : JValue) : Option JValue :=
  match path with
  | [] => some v
  | _ => mutSet (jsClone d) path v

/-- What the input document is after a call of setValueAtPath on it (the
document is a tree, aliasing-free, as JSON.parse yields).  Only the top level
is copied, so for a path of length at least two whose first segment is
present in the copy, the loop descends into the child that the input still
shares with the copy and every further assignment mutates that shared
substructure; the input keeps its own top level but sees the rewritten
child.  For an empty or one-segment path, or when the first segment is
absent from the copy (everything below is then freshly created), the input
is untouched.  none models the call throwing, in which case no assignment
has happened and the input is also untouched. -/
def setValueAtPathInputAfter (d : JValue) (path : List Seg) (v : JValue) :
    Option JValue :=
  match path with
  | [] => some d
  | [s] =>
      match mutSet (jsClone d) [s] v with
      | none => none
      | some _ => some d
  | s :: q :: rest =>
      match jsRead (jsClone d) s with
      | none => none
      | some w =>
          if isUndef w then
            match mutSet (jsClone d) (s :: q :: rest) v with
            | none => none
            | some _ => some d
          else
            match mutSet w (q :: rest) v with
            | none => none
            | some ch => jsSetProp d s ch

/-- Join a list of strings with a separator, the behaviour of Array
prototype join. -/
def joinSep (sep : String) : List String → String
  | [] => ""
  | [x] => x
  | x :: y :: t => x ++ sep ++ joinSep sep (y :: t)

/-- One hexadecimal digit, lowercase. -/
def hexDigit (n : Nat) : Char :=
  if n < 10 then Char.ofNat (48 + n) else Char.ofNat (87 + (n % 6))

/-- JSON string escaping of one character as JSON.stringify performs it. -/
def escChar (c : Char) : String :=
  if c = '"' then "\\\""
  else if c = '\\' then "\\\\"
  else if c = '\n' then "\\n"
  else if c = '\t' then "\\t"
  else if c = '\r' then "\\r"
  else if c = Char.ofNat 8 then "\\b"
  else if c = Char.ofNat 12 then "\\f"
  else if c.toNat < 32 then
    "\\u00" ++ String.singleton (hexDigit (c.toNat / 16))
      ++ String.singleton (hexDigit (c.toNat % 16))
  else String.singleton c

/-- A JSON string literal for s. -/
def jsonQuote (s : String) : String :=
  "\"" ++ String.join (s.data.map escChar) ++ "\""

/-- Ascending insertion of an index-tagged rendered property. -/
def insertNumField (x : Nat × (String × String)) :
    List (Nat × (String × String)) → List (Nat × (String × String))
  | [] => [x]
  | y :: t => if x.1 < y.1 then x :: y :: t else y :: insertNumField x t

/-- Ascending insertion sort of index-tagged rendered properties. -/
def sortNumFields : List (Nat × (String × String)) →
    List (Nat × (String × String))
  | [] => []
  | x :: t => insertNumField x (sortNumFields t)

/-- The own-property enumeration order JSON.stringify serializes an object
in: keys that are canonical array indices first, in ascending numeric order,
then the remaining string keys in insertion order. -/
def orderRendered (l : List (String × String)) : List (String × String) :=
  (sortNumFields
      (l.filterMap (fun p => (canonIndex p.1).map (fun n => (n, p))))).map
    (fun x => x.2)
  ++ l.filter (fun p => (canonIndex p.1).isNone)

mutual

/-- JSON.stringify(v, null, 2) at surrounding indentation ind: none when v is
undefined (stringify of undefined is undefined, not a string), otherwise the
two-space indented JSON text; undefined elements of arrays print as null,
undefined-valued object properties are skipped, the non-index own properties
of an array are ignored, and object properties are enumerated in the
own-property key order: canonical-numeric keys first in ascending numeric
order, then the rest in insertion order. -/
def jsRender (ind : String) : JValue → Option String
  | JValue.undef => none
  | JValue.null => some "null"
  | JValue.bool b => some (if b then "true" else "false")
  | JValue.num n => some (toString n)
  | JValue.str t => some (jsonQuote t)
  | JValue.arr xs _ =>
      match renderElems (ind ++ "  ") xs with
      | [] => some "[]"
      | it :: its => some ("[\n"
          ++ joinSep ",\n" ((it :: its).map (fun x => ind ++ "  " ++ x))
          ++ "\n" ++ ind ++ "]")
  | JValue.obj kvs =>
      match orderRendered (renderFields (ind ++ "  ") kvs) with
      | [] => some "\x7b\x7d"
      | it :: its => some ("\x7b\n"
          ++ joinSep ",\n" ((it :: its).map
              (fun x => ind ++ "  " ++ jsonQuote x.1 ++ ": " ++ x.2))
          ++ "\n" ++ ind ++ "\x7d")

/-- Rendered array elements (undefined becomes null). -/
def renderElems (ind : String) : List JValue → List String
  | [] => []
  | x :: xs => ((jsRender ind x).getD "null") :: renderElems ind xs

/-- Object properties rendered in insertion order as key and rendered-value
pairs (undefined-valued ones are skipped); the enumeration reorder is
applied afterwards. -/
def renderFields (ind : String) : List (String × JValue) → List (String × String)
  | [] => []
  | (k, v) :: t =>
      match jsRender ind v with
      | none => renderFields ind t
      | some sv => (k, sv) :: renderFields ind t

end

mutual

/-- JavaScript string coercion of a value, the meaning of a template literal
over it: null and undefined by name, numbers and booleans as printed,
strings verbatim, arrays joined by commas with null and undefined elements
as empty strings, plain objects as the object tag. -/
def jsTemplate : JValue → String
  | JValue.null => "null"
  | JValue.undef => "undefined"
  | JValue.bool b => if b then "true" else "false"
  | JValue.num n => toString n
  | JValue.str t => t
  | JValue.obj _ => "[object Object]"
  | JValue.arr xs _ => joinSep "," (templateElems xs)

/-- Elements under array string coercion. -/
def templateElems : List JValue → List String
  | [] => []
  | JValue.null :: xs => "" :: templateElems xs
  | JValue.undef :: xs => "" :: templateElems xs
  | x :: xs => jsTemplate x :: templateElems xs

end

/-- Modelled from the spec: a node row, one child entry of a node, as the
missing NodeData type of src/types/graph supplies it: an optional key, a
value, and a type tag distinguishing scalar kinds from the array and object
container placeholders. -/
structure NodeRow where
  key : Option String
  value : JValue
  rtype : String

/-- JavaScript truthiness of row.key: false for an absent key and for the
empty string. -/
def rowKeyTruthy (r : NodeRow) : Bool :=
  match r.key with
  | none => false
  | some k => k != ""

/-- One step of the mapping loop of normalizeNodeData: a row that is not a
container placeholder and has a truthy key assigns its value at its key. -/
def buildStep (m : List (String × JValue)) (r : NodeRow) :
    List (String × JValue) :=
  if r.rtype != "array" && r.rtype != "object" && rowKeyTruthy r then
    assocSet m (r.key.getD "") r.value
  else m

/-- The mapping the multi-row branch of normalizeNodeData builds, walking
the rows in order. -/
def buildMapping (rows : List NodeRow) : List (String × JValue) :=
  rows.foldl buildStep []

/-- Serialize a built mapping as the source does: JSON.stringify(obj, null, 2)
of the object (always a string for an object argument). -/
def renderMapping (m : List (String × JValue)) : String :=
  (jsRender "" (JValue.obj m)).getD ""

/-- normalizeNodeData from the source: empty rows give the empty-object text;
a single row whose key is falsy gives the template-coerced value; otherwise
the indented serialization of the built mapping. -/
def normalizeNodeData (rows : List NodeRow) : String :=
  match rows with
  | [] => "\x7b\x7d"
  | [r] =>
      if rowKeyTruthy r then renderMapping (buildMapping [r])
      else jsTemplate r.value
  | r :: t => renderMapping (buildMapping (r :: t))

/-- Eligibility per the claim C8 reference definition read literally: the row
type is not a container placeholder and the row has a key (any string,
including the empty one). -/
def specEligible (r : NodeRow) : Bool :=
  r.rtype != "array" && r.rtype != "object" && r.key.isSome

/-- The reference mapping of claim C8, literally: key-to-value over the rows
in order, skipping container placeholders and rows without a key. -/
def specMapping (acc : List (String × JValue)) : List NodeRow →
    List (String × JValue)
  | [] => acc
  | r :: rs =>
      specMapping (if specEligible r then assocSet acc (r.key.getD "") r.value
                   else acc) rs

/-- The reference definition of claim C8 read literally: no rows give the
empty-object text; exactly one row with no key gives the value rendered
directly as JSON text; otherwise the indented serialization of the
reference mapping. -/
def normRefSpec : List NodeRow → String
  | [] => "\x7b\x7d"
  | [r] =>
      match r.key with
      | none => (jsRender "" r.value).getD "undefined"
      | some _ => renderMapping (specMapping [] [r])
  | r :: t => renderMapping (specMapping [] (r :: t))

/-- Eligibility for the amended reference definition: scalar-typed with a
truthy key (absent and empty keys both count as keyless). -/
def amendedEligible (r : NodeRow) : Bool :=
  r.rtype != "array" && r.rtype != "object" && rowKeyTruthy r

/-- The amended reference mapping: as specMapping but a row with an empty
key is skipped like a keyless row. -/
def amendedMapping (acc : List (String × JValue)) : List NodeRow →
    List (String × JValue)
  | [] => acc
  | r :: rs =>
      amendedMapping
        (if amendedEligible r then assocSet acc (r.key.getD "") r.value
         else acc) rs

/-- The amended reference definition of claim C8: the bare branch applies to
a single row whose key is absent or empty and renders the value by
JavaScript string coercion; the mapping branch also skips empty keys. -/
def normRefAmended : List NodeRow → String
  | [] => "\x7b\x7d"
  | [r] =>
      if rowKeyTruthy r then renderMapping (amendedMapping [] [r])
      else jsTemplate r.value
  | r :: t => renderMapping (amendedMapping [] (r :: t))

/-- Rendering of one path segment inside jsonPathToString: the number itself
for an integer segment, the quoted key otherwise (no further escaping). -/
def segRender : Seg → String
  | Seg.idx n => Nat.repr n
  | Seg.key k => "\"" ++ k ++ "\""

/-- jsonPathToString from the source: dollar for an absent or empty path,
otherwise the segments rendered, joined with back-to-back brackets and
wrapped after the root dollar. -/
def jsonPathToString : Option (List Seg) → String
  | none => "$"
  | some [] => "$"
  | some p => "$[" ++ joinSep "][" (p.map segRender) ++ "]"

/-- The per-segment bracket concatenation the spec describes. -/
def concatBrackets : List Seg → String
  | [] => ""
  | s :: t => "[" ++ segRender s ++ "]" ++ concatBrackets t

/-- The orchestrator state visible to handleSave: the editing flag, the edit
buffer, the surfaced error, and the document store text with its dirty flag
(getJson and setContents both face the same live document text). -/
structure EditorState where
  editing : Bool
  editValue : String
  error : Option String
  contents : String
  hasChanges : Bool
deriving Repr

/-- handleSave from the source, with JSON.parse abstracted as the parse
argument (a builtin; errors carry the parser message).  It clears the error,
parses the edit buffer, parses the live document, writes the parsed value at
the node path (an absent path replaces the whole document), and on success
publishes the reserialized document and leaves editing; any thrown error is
caught and surfaced.  The graph-rebuild block only touches the external
graph store and cannot affect this state. -/
def handleSave (parse : String → Except String JValue)
    (path : Option (List Seg)) (s : EditorState) : EditorState :=
  let s0 : EditorState := { s with error := none }
  match parse s0.editValue with
  | Except.error e => { s0 with error := some e }
  | Except.ok parsedNew =>
      match parse s0.contents with
      | Except.error e => { s0 with error := some e }
      | Except.ok whole =>
          match setValueAtPath whole (path.getD []) parsedNew with
          | none => { s0 with error := some "TypeError" }
          | some updated =>
              { s0 with
                contents := (jsRender "" updated).getD "undefined",
                hasChanges := true,
                editing := false }

/-- The edit-text seeding effect from the source (the useEffect body and the
Edit and Cancel handlers): parse the live document and stringify the value
resolved at the node path; when parsing throws, fall back to the normalized
rows.  The result is what setEditValue receives: none when the resolved
value is absent, because stringify of undefined is undefined, not a
string. -/
def seedEditValue (parse : String → Except String JValue) (contents : String)
    (path : List Seg) (rows : List NodeRow) : Option String :=
  match parse contents with
  | Except.error _ => some (normalizeNodeData rows)
  | Except.ok parsed => jsRender "" (getValueAtPath parsed path)

/-- A value is an array or an object. -/
def isContainer : JValue → Bool
  | JValue.arr _ _ => true
  | JValue.obj _ => true
  | _ => false

/-- The value is an array. -/
def isArrB : JValue → Bool
  | JValue.arr _ _ => true
  | _ => false

/-- The value is a plain object. -/
def isObjB : JValue → Bool
  | JValue.obj _ => true
  | _ => false

/-- Replace an empty-string key by an absent one, leaving other rows
untouched (the comparison form used to state that normalizeNodeData treats
the two alike). -/
def clearEmptyKey (r : NodeRow) : NodeRow :=
  if r.key = some "" then { r with key := none } else r

/-- The resolution walk of getValueAtPath indexes only arrays and objects
(never the interior of a string or any other value). -/
def resolvesViaContainers : JValue → List Seg → Bool
  | _, [] => true
  | c, s :: rest => isContainer c && resolvesViaContainers (jsGet c s) rest

mutual

/-- A JSON value per the data model: no undefined anywhere and no non-index
array properties (exactly what JSON.parse can produce). -/
def wf : JValue → Bool
  | JValue.undef => false
  | JValue.arr xs ps => ps.isEmpty && wfElems xs
  | JValue.obj kvs => wfFields kvs
  | _ => true

/-- All elements well-formed. -/
def wfElems : List JValue → Bool
  | [] => true
  | x :: xs => wf x && wfElems xs

/-- All property values well-formed. -/
def wfFields : List (String × JValue) → Bool
  | [] => true
  | (_, v) :: t => wf v && wfFields t

end
/-- Key names on which plain bracket access on a JSON value can leave the
own-data fragment the embedding models: the exotic length of arrays and
strings, the prototype accessor, and the member names of the standard
Object, Array, String, Number and Boolean prototypes (ECMA-262 including
Annex B).  On such a key a read of a property that is absent as own data
yields an inherited value in the program, and an assignment may hit exotic
or accessor behaviour; the universal theorems about arbitrary key segments
therefore restrict themselves to segments outside this list, on which the
embedding is exact.  The list errs on the large side: excluding more keys
only shrinks the quantified class. -/
def reservedKeys : List String :=
  ["__defineGetter__", "__defineSetter__", "__lookupGetter__",
   "__lookupSetter__", "__proto__", "anchor", "at", "big", "blink", "bold",
   "charAt", "charCodeAt", "codePointAt", "concat", "constructor",
   "copyWithin", "endsWith", "entries", "every", "fill", "filter", "find",
   "findIndex", "findLast", "findLastIndex", "fixed", "flat", "flatMap",
   "fontcolor", "fontsize", "forEach", "hasOwnProperty", "includes",
   "indexOf", "isPrototypeOf", "isWellFormed", "italics", "join", "keys",
   "lastIndexOf", "length", "link", "localeCompare", "map", "match",
   "matchAll", "normalize", "padEnd", "padStart", "pop",
   "propertyIsEnumerable", "push", "reduce", "reduceRight", "repeat",
   "replace", "replaceAll", "reverse", "search", "shift", "slice", "small",
   "some", "sort", "splice", "split", "startsWith", "strike", "sub",
   "substr", "substring", "sup", "toExponential", "toFixed",
   "toLocaleLowerCase", "toLocaleString", "toLocaleUpperCase", "toLowerCase",
   "toPrecision", "toReversed", "toSorted", "toSpliced", "toString",
   "toUpperCase", "toWellFormed", "trim", "trimEnd", "trimLeft", "trimRight",
   "trimStart", "unshift", "valueOf", "values", "with"]

/-- A segment that can leave the own-data fragment: a key segment naming a
reserved key.  Integer segments never do (the standard prototypes have no
integer-named members). -/
def segIsReserved : Seg → Bool
  | Seg.idx _ => false
  | Seg.key k => reservedKeys.contains k

/-- Every segment of the path stays inside the own-data fragment. -/
def pathUnreserved (p : List Seg) : Bool :=
  p.all (fun s => !segIsReserved s)

theorem assocGet_assocSet_self (l : List (String × JValue)) (k : String)
    (v : JValue) : assocGet (assocSet l k v) k = some v := by
  induction l with
  | nil => simp [assocSet, assocGet]
  | cons h t ih =>
      obtain ⟨k1, v1⟩ := h
      by_cases hk : k1 = k
      · simp [assocSet, hk, assocGet]
      · simp [assocSet, hk, assocGet, ih]

theorem assocSet_self (l : List (String × JValue)) (k : String) (v : JValue)
    (h : assocGet l k = some v) : assocSet l k v = l := by
  induction l with
  | nil => simp [assocGet] at h
  | cons hd t ih =>
      obtain ⟨k1, v1⟩ := hd
      by_cases hk : k1 = k
      · simp [assocGet, hk] at h
        simp [assocSet, hk, h]
      · simp [assocGet, hk] at h
        simp [assocSet, hk, ih h]

theorem listSet_get_self (xs : List JValue) (i : Nat) (v : JValue) :
    (listSet xs i v)[i]? = some v := by
  unfold listSet
  split
  · exact List.getElem?_set_eq_of_lt v (by assumption)
  · rename_i hge
    rw [List.getElem?_append_right (by simp; omega)]
    have h0 : i - (xs ++ List.replicate (i - xs.length) JValue.undef).length = 0 := by
      simp; omega
    rw [h0]
    rfl

theorem listSet_self (xs : List JValue) (i : Nat) (v : JValue)
    (h : xs.get? i = some v) : listSet xs i v = xs := by
  have hlt : i < xs.length := by
    by_contra hge
    rw [List.get?_eq_none.mpr (by omega)] at h
    exact Option.noConfusion h
  unfold listSet
  rw [if_pos hlt]
  induction xs generalizing i with
  | nil => simp at hlt
  | cons x t ih =>
      cases i with
      | zero => simp_all
      | succ j =>
          simp at h hlt
          simp [ih j (by simpa using h) (by omega)]

/-- A successful property assignment happens only on a container, and the
result is a container of the same kind. -/
theorem jsSetProp_some (c : JValue) (s : Seg) (v r : JValue)
    (h : jsSetProp c s v = some r) : isContainer c = true ∧ isContainer r = true := by
  cases c with
  | arr xs ps =>
      cases s with
      | idx i =>
          simp [jsSetProp] at h
          simp [← h, isContainer]
      | key k =>
          cases hci : canonIndex k <;> simp [jsSetProp, hci] at h <;>
            simp [← h, isContainer]
  | obj kvs =>
      cases s with
      | idx i => simp [jsSetProp] at h; simp [← h, isContainer]
      | key k => simp [jsSetProp] at h; simp [← h, isContainer]
  | null => simp [jsSetProp] at h
  | undef => simp [jsSetProp] at h
  | bool b => simp [jsSetProp] at h
  | num n => simp [jsSetProp] at h
  | str t => simp [jsSetProp] at h

/-- Reading back the property just assigned. -/
theorem jsGet_jsSetProp (c : JValue) (s : Seg) (v r : JValue)
    (h : jsSetProp c s v = some r) : jsGet r s = v := by
  cases c with
  | arr xs ps =>
      cases s with
      | idx i =>
          simp [jsSetProp] at h
          simp [← h, jsGet, listSet_get_self]
      | key k =>
          cases hci : canonIndex k with
          | none =>
              simp [jsSetProp, hci] at h
              simp [← h, jsGet, hci, assocGet_assocSet_self]
          | some i =>
              simp [jsSetProp, hci] at h
              simp [← h, jsGet, hci, listSet_get_self]
  | obj kvs =>
      cases s with
      | idx i =>
          simp [jsSetProp] at h
          simp [← h, jsGet, assocGet_assocSet_self]
      | key k =>
          simp [jsSetProp] at h
          simp [← h, jsGet, assocGet_assocSet_self]
  | null => simp [jsSetProp] at h
  | undef => simp [jsSetProp] at h
  | bool b => simp [jsSetProp] at h
  | num n => simp [jsSetProp] at h
  | str t => simp [jsSetProp] at h

/-- On a container the walk steps through the property. -/
theorem getValueAtPath_cons (c : JValue) (s : Seg) (rest : List Seg)
    (hc : isContainer c = true) :
    getValueAtPath c (s :: rest) = getValueAtPath (jsGet c s) rest := by
  cases c <;> simp_all [isContainer, getValueAtPath, isNullish]

/-- Reading on a container does not throw. -/
theorem jsRead_container (c : JValue) (s : Seg) (hc : isContainer c = true) :
    jsRead c s = some (jsGet c s) := by
  cases c <;> simp_all [isContainer, jsRead, isNullish]

/-- Core write-then-read fidelity: a successful run of the write loop leaves
the written value resolvable at the written path. -/
theorem mutSet_get : ∀ (path : List Seg) (c v r : JValue),
    mutSet c path v = some r → getValueAtPath r path = v
  | [], _, v, r, h => by
      simp [mutSet] at h
      simp [getValueAtPath, ← h]
  | [s], c, v, r, h => by
      simp only [mutSet] at h
      have hc := (jsSetProp_some c s v r h).2
      rw [getValueAtPath_cons r s [] hc, jsGet_jsSetProp c s v r h]
      rfl
  | s :: q :: rest, c, v, r, h => by
      simp only [mutSet] at h
      split at h
      · exact Option.noConfusion h
      · split at h
        · split at h
          · exact Option.noConfusion h
          · split at h
            · exact Option.noConfusion h
            · rename_i ch h2
              have hcr := (jsSetProp_some _ s ch r h).2
              rw [getValueAtPath_cons r s (q :: rest) hcr,
                  jsGet_jsSetProp _ s ch r h]
              exact mutSet_get (q :: rest) (freshFor q) v ch h2
        · split at h
          · exact Option.noConfusion h
          · rename_i ch h2
            have hcr := (jsSetProp_some c s ch r h).2
            rw [getValueAtPath_cons r s (q :: rest) hcr,
                jsGet_jsSetProp c s ch r h]
            exact mutSet_get (q :: rest) _ v ch h2

/-- Claim C2 as stated is false: with document with a at 5, path a then b,
value 1, the write throws (strict-mode TypeError assigning a property on the
number 5), so no document is returned at all, let alone one resolving to the
value. -/
theorem c2_write_then_read_counterexample :
    ¬ ∃ r, setValueAtPath (JValue.obj [("a", JValue.num 5)])
        [Seg.key "a", Seg.key "b"] (JValue.num 1) = some r
      ∧ getValueAtPath r [Seg.key "a", Seg.key "b"] = JValue.num 1 := by
  rintro ⟨r, hr, -⟩
  exact Option.noConfusion ((rfl :
    setValueAtPath (JValue.obj [("a", JValue.num 5)])
      [Seg.key "a", Seg.key "b"] (JValue.num 1) = none) ▸ hr)

/-- Claim C2 amended: write-then-read fidelity holds whenever every segment
of the path stays inside the own-data fragment (no array or string length,
no prototype accessor, no standard prototype member name, where the runtime
performs exotic or inherited accesses the claim does not survive, e.g. a
length assignment coerces and reads back as the length number) and the write
does not throw: resolving the written path in the returned document yields
the written value. -/
theorem c2_write_then_read_amended (d : JValue) (path : List Seg)
    (v r : JValue) (hres : pathUnreserved path = true)
    (h : setValueAtPath d path v = some r) :
    getValueAtPath r path = v := by
  cases path with
  | nil =>
      simp [setValueAtPath] at h
      simp [getValueAtPath, ← h]
  | cons s rest => exact mutSet_get (s :: rest) (jsClone d) v r h

theorem c2_write_then_read_amended_witness :
    getValueAtPath (JValue.obj [("a", JValue.num 1)]) [Seg.key "a"]
      = JValue.num 1 :=
  c2_write_then_read_amended (JValue.obj []) [Seg.key "a"] (JValue.num 1)
    (JValue.obj [("a", JValue.num 1)]) (by decide) rfl

/-- Writing back the value already present at a segment leaves a container
unchanged. -/
theorem jsSetProp_self (c : JValue) (s : Seg) (hc : isContainer c = true)
    (h : jsGet c s ≠ JValue.undef) : jsSetProp c s (jsGet c s) = some c := by
  cases c with
  | arr xs ps =>
      cases s with
      | idx i =>
          cases hx : xs[i]? with
          | none => simp [jsGet, hx] at h
          | some w =>
              simp only [jsGet, hx, Option.getD_some] at h ⊢
              have := listSet_self xs i w (by simpa using hx)
              simp [jsSetProp, hx, this]
      | key k =>
          cases hci : canonIndex k with
          | some i =>
              cases hx : xs[i]? with
              | none => simp [jsGet, hci, hx] at h
              | some w =>
                  simp only [jsGet, hci, hx, Option.getD_some] at h ⊢
                  have := listSet_self xs i w (by simpa using hx)
                  simp [jsSetProp, hci, hx, this]
          | none =>
              cases hx : assocGet ps k with
              | none => simp [jsGet, hci, hx] at h
              | some w =>
                  simp only [jsGet, hci, hx, Option.getD_some] at h ⊢
                  simp [jsSetProp, hci, assocSet_self ps k w hx]
  | obj kvs =>
      cases s with
      | idx i =>
          cases hx : assocGet kvs (Nat.repr i) with
          | none => simp [jsGet, hx] at h
          | some w =>
              simp only [jsGet, hx, Option.getD_some] at h ⊢
              simp [jsSetProp, assocSet_self kvs (Nat.repr i) w hx]
      | key k =>
          cases hx : assocGet kvs k with
          | none => simp [jsGet, hx] at h
          | some w =>
              simp only [jsGet, hx, Option.getD_some] at h ⊢
              simp [jsSetProp, assocSet_self kvs k w hx]
  | null => simp [isContainer] at hc
  | undef => simp [isContainer] at hc
  | bool b => simp [isContainer] at hc
  | num n => simp [isContainer] at hc
  | str t => simp [isContainer] at hc

/-- A container is not undefined. -/
theorem isContainer_ne_undef (c : JValue) (hc : isContainer c = true) :
    c ≠ JValue.undef := by
  cases c <;> simp_all [isContainer]

/-- No-op write loop: when the resolution walk only indexes containers and
finds a present value, writing that value back leaves the content
unchanged. -/
theorem mutSet_noop : ∀ (path : List Seg) (c : JValue), path ≠ [] →
    resolvesViaContainers c path = true →
    getValueAtPath c path ≠ JValue.undef →
    mutSet c path (getValueAtPath c path) = some c
  | [], _, hne, _, _ => absurd rfl hne
  | [s], c, _, hrc, hdef => by
      have hc : isContainer c = true := by
        simp [resolvesViaContainers] at hrc; exact hrc
      have hg : getValueAtPath c [s] = jsGet c s := by
        rw [getValueAtPath_cons c s [] hc]; rfl
      rw [hg] at hdef ⊢
      show jsSetProp c s (jsGet c s) = some c
      exact jsSetProp_self c s hc hdef
  | s :: q :: rest, c, _, hrc, hdef => by
      rw [show resolvesViaContainers c (s :: q :: rest)
            = (isContainer c && resolvesViaContainers (jsGet c s) (q :: rest))
          from rfl, Bool.and_eq_true] at hrc
      obtain ⟨hc, hrc2⟩ := hrc
      have hw : isContainer (jsGet c s) = true := by
        have h2 := hrc2
        rw [show resolvesViaContainers (jsGet c s) (q :: rest)
              = (isContainer (jsGet c s)
                  && resolvesViaContainers (jsGet (jsGet c s) q) rest)
            from rfl, Bool.and_eq_true] at h2
        exact h2.1
      have hg : getValueAtPath c (s :: q :: rest)
          = getValueAtPath (jsGet c s) (q :: rest) :=
        getValueAtPath_cons c s (q :: rest) hc
      rw [hg] at hdef ⊢
      have hrec := mutSet_noop (q :: rest) (jsGet c s) (by simp) hrc2 hdef
      have hread := jsRead_container c s hc
      have hnu : isUndef (jsGet c s) = false := by
        cases hjs : jsGet c s <;> simp_all [isContainer, isUndef]
      have hne : jsGet c s ≠ JValue.undef := isContainer_ne_undef _ hw
      simp only [mutSet, hread, hnu, Bool.false_eq_true, if_false, hrec]
      exact jsSetProp_self c s hc hne

/-- Claim C3 as stated is false: for the document that is the string ab and
the path with single key 0, resolution is defined (the character a, since a
string key that spells an index reads the character of the string), yet
writing that resolved value back returns the character-indexed object spread
of the string, not the original string. -/
theorem c3_noop_write_counterexample :
    getValueAtPath (JValue.str "ab") [Seg.key "0"] ≠ JValue.undef ∧
    setValueAtPath (JValue.str "ab") [Seg.key "0"]
        (getValueAtPath (JValue.str "ab") [Seg.key "0"])
      ≠ some (JValue.str "ab") := by
  constructor
  · intro h
    exact JValue.noConfusion
      (show JValue.str "a" = JValue.undef from h)
  · intro h
    have h2 : JValue.obj [("0", JValue.str "a"), ("1", JValue.str "b")]
        = JValue.str "ab" := Option.some.inj h
    exact JValue.noConfusion h2

/-- On a well-formed container the shallow copy is content-identical. -/
theorem jsClone_wf (d : JValue) (hwf : wf d = true)
    (hc : isContainer d = true) : jsClone d = d := by
  cases d with
  | arr xs ps =>
      have : ps.isEmpty = true := by
        rw [show wf (JValue.arr xs ps) = (ps.isEmpty && wfElems xs) from rfl,
            Bool.and_eq_true] at hwf
        exact hwf.1
      simp [jsClone, List.isEmpty_iff.mp this]
  | obj kvs => rfl
  | null => simp [isContainer] at hc
  | undef => simp [isContainer] at hc
  | bool b => simp [isContainer] at hc
  | num n => simp [isContainer] at hc
  | str t => simp [isContainer] at hc

/-- Claim C3 amended: over JSON documents (no undefined, no stray array
properties), when every segment stays inside the own-data fragment (no
length, prototype accessor or standard prototype member name, where the
program resolves inherited values such as toString that a write would then
shadow with an own property), resolution is defined, and the resolution walk
indexes only arrays and objects, writing the resolved value back at the same
path returns the document unchanged. -/
theorem c3_noop_write_amended (d : JValue) (path : List Seg)
    (hwf : wf d = true)
    (hres : pathUnreserved path = true)
    (hrc : resolvesViaContainers d path = true)
    (hdef : getValueAtPath d path ≠ JValue.undef) :
    setValueAtPath d path (getValueAtPath d path) = some d := by
  cases path with
  | nil => rfl
  | cons s rest =>
      have hrc2 := hrc
      rw [show resolvesViaContainers d (s :: rest)
            = (isContainer d && resolvesViaContainers (jsGet d s) rest)
          from rfl, Bool.and_eq_true] at hrc2
      show mutSet (jsClone d) (s :: rest) (getValueAtPath d (s :: rest)) = some d
      rw [jsClone_wf d hwf hrc2.1]
      exact mutSet_noop (s :: rest) d (by simp) hrc hdef

theorem c3_noop_write_amended_witness :
    setValueAtPath (JValue.obj [("a", JValue.num 1)]) [Seg.key "a"]
        (getValueAtPath (JValue.obj [("a", JValue.num 1)]) [Seg.key "a"])
      = some (JValue.obj [("a", JValue.num 1)]) :=
  c3_noop_write_amended (JValue.obj [("a", JValue.num 1)]) [Seg.key "a"] rfl
    (by decide) rfl
    (fun h => JValue.noConfusion (show JValue.num 1 = JValue.undef from h))


/-- Claim C1 is false of the code: only the top level is copied, so writing 2
at path a then b into the document where a maps to the object with b at 1
mutates the shared nested object in place: after the call the input document
itself holds 2 at a then b. -/
theorem c1_setValueAtPath_mutates_nested_input :
    setValueAtPathInputAfter (JValue.obj [("a", JValue.obj [("b", JValue.num 1)])])
        [Seg.key "a", Seg.key "b"] (JValue.num 2)
      = some (JValue.obj [("a", JValue.obj [("b", JValue.num 2)])])
    ∧ JValue.obj [("a", JValue.obj [("b", JValue.num 2)])]
      ≠ JValue.obj [("a", JValue.obj [("b", JValue.num 1)])] := by
  refine ⟨rfl, ?_⟩
  intro h
  have h1 := List.head_eq_of_cons_eq (JValue.obj.inj h)
  have h2 := congrArg Prod.snd h1
  have h3 := List.head_eq_of_cons_eq (JValue.obj.inj h2)
  have h4 := congrArg Prod.snd h3
  exact absurd (JValue.num.inj h4) (by omega)

/-- Claim C4: when parsing the edit buffer fails, or it parses but parsing
the live document fails, handleSave only records the parser error: editing,
edit buffer, document text and dirty flag are all left as they were. -/
theorem c4_save_parse_failure_keeps_state
    (parse : String → Except String JValue) (path : Option (List Seg))
    (s : EditorState) (e : String)
    (h : parse s.editValue = Except.error e ∨
      (∃ x, parse s.editValue = Except.ok x ∧ parse s.contents = Except.error e)) :
    handleSave parse path s = { s with error := some e } := by
  rcases h with h | ⟨x, hx, hc⟩
  · simp [handleSave, h]
  · simp [handleSave, hx, hc]

theorem c4_save_parse_failure_keeps_state_witness :
    handleSave (fun t => if t = "1" then Except.ok (JValue.num 1)
        else Except.error "Unexpected token")
      (some [Seg.key "a"])
      ⟨true, "bad json", none, "also bad", false⟩
    = { EditorState.mk true "bad json" none "also bad" false
          with error := some "Unexpected token" } :=
  c4_save_parse_failure_keeps_state _ (some [Seg.key "a"])
    ⟨true, "bad json", none, "also bad", false⟩ "Unexpected token"
    (Or.inl rfl)

/-- Assignment on a container always succeeds and preserves the container
kind. -/
theorem jsSetProp_total (c : JValue) (s : Seg) (v : JValue)
    (hc : isContainer c = true) :
    ∃ r, jsSetProp c s v = some r ∧ isArrB r = isArrB c ∧ isObjB r = isObjB c := by
  cases c with
  | arr xs ps =>
      cases s with
      | idx i => exact ⟨_, rfl, rfl, rfl⟩
      | key k =>
          cases hci : canonIndex k with
          | some i =>
              exact ⟨JValue.arr (listSet xs i v) ps,
                by simp [jsSetProp, hci], rfl, rfl⟩
          | none =>
              exact ⟨JValue.arr xs (assocSet ps k v),
                by simp [jsSetProp, hci], rfl, rfl⟩
  | obj kvs =>
      cases s with
      | idx i => exact ⟨_, rfl, rfl, rfl⟩
      | key k => exact ⟨_, rfl, rfl, rfl⟩
  | null => simp [isContainer] at hc
  | undef => simp [isContainer] at hc
  | bool b => simp [isContainer] at hc
  | num n => simp [isContainer] at hc
  | str t => simp [isContainer] at hc

/-- A freshly created container has no properties at all. -/
theorem jsGet_freshFor (q : Seg) (s : Seg) :
    jsGet (freshFor q) s = JValue.undef := by
  cases q with
  | idx n =>
      cases s with
      | idx i => rfl
      | key k =>
          show jsGet (JValue.arr [] []) (Seg.key k) = JValue.undef
          cases hci : canonIndex k <;> simp [jsGet, hci, assocGet]
  | key k0 =>
      cases s with
      | idx i => rfl
      | key k => rfl

/-- Containers are arrays or objects. -/
theorem isContainer_eq_or (c : JValue) :
    isContainer c = (isArrB c || isObjB c) := by
  cases c <;> rfl

/-- Writing any path into a propertyless container succeeds, returning a
container of the same kind. -/
theorem mutSet_into_empty : ∀ (path : List Seg), path ≠ [] → ∀ (c : JValue),
    isContainer c = true → (∀ s2, jsGet c s2 = JValue.undef) → ∀ (v : JValue),
    ∃ r, mutSet c path v = some r ∧ isArrB r = isArrB c ∧ isObjB r = isObjB c
  | [], hne, _, _, _, _ => absurd rfl hne
  | [s], _, c, hc, hempty, v => by
      obtain ⟨r, h1, h2, h3⟩ := jsSetProp_total c s v hc
      exact ⟨r, h1, h2, h3⟩
  | s :: q :: rest, _, c, hc, hempty, v => by
      have hfc : isContainer (freshFor q) = true := by cases q <;> rfl
      have hfe := jsGet_freshFor q
      obtain ⟨c1, h1, hk1a, hk1b⟩ := jsSetProp_total c s (freshFor q) hc
      obtain ⟨ch, h2, hk2a, hk2b⟩ :=
        mutSet_into_empty (q :: rest) (by simp) (freshFor q) hfc hfe v
      have hc1 : isContainer c1 = true := by
        rw [isContainer_eq_or, hk1a, hk1b, ← isContainer_eq_or]
        exact hc
      obtain ⟨r, h3, hk3a, hk3b⟩ := jsSetProp_total c1 s ch hc1
      refine ⟨r, ?_, by rw [hk3a, hk1a], by rw [hk3b, hk1b]⟩
      simp only [mutSet, jsRead_container c s hc, hempty s, isUndef, if_true,
        h1, h2, h3]

/-- Claim C5: at any traversal level, when the current container lacks the
segment, the write creates the missing intermediate container, an array when
the next segment is an integer and an object otherwise, and the write then
succeeds inside it; in particular writing 1 at path a then b into the empty
document produces the nested objects of the scenario. -/
theorem c5_write_creates_missing_container :
    (∀ (c : JValue) (s q : Seg) (rest : List Seg) (v : JValue),
      isContainer c = true → jsGet c s = JValue.undef →
      ∃ r, mutSet c (s :: q :: rest) v = some r ∧
        isArrB (jsGet r s) = (match q with | Seg.idx _ => true | Seg.key _ => false) ∧
        isObjB (jsGet r s) = (match q with | Seg.idx _ => false | Seg.key _ => true))
    ∧ setValueAtPath (JValue.obj []) [Seg.key "a", Seg.key "b"] (JValue.num 1)
      = some (JValue.obj [("a", JValue.obj [("b", JValue.num 1)])]) := by
  constructor
  · intro c s q rest v hc hg
    have hfc : isContainer (freshFor q) = true := by cases q <;> rfl
    obtain ⟨c1, h1, hk1a, hk1b⟩ := jsSetProp_total c s (freshFor q) hc
    obtain ⟨ch, h2, hk2a, hk2b⟩ :=
      mutSet_into_empty (q :: rest) (by simp) (freshFor q) hfc (jsGet_freshFor q) v
    have hc1 : isContainer c1 = true := by
      rw [isContainer_eq_or, hk1a, hk1b, ← isContainer_eq_or]
      exact hc
    obtain ⟨r, h3, hk3a, hk3b⟩ := jsSetProp_total c1 s ch hc1
    refine ⟨r, ?_, ?_, ?_⟩
    · simp only [mutSet, jsRead_container c s hc, hg, isUndef, if_true,
        h1, h2, h3]
    · rw [jsGet_jsSetProp c1 s ch r h3, hk2a]
      cases q <;> rfl
    · rw [jsGet_jsSetProp c1 s ch r h3, hk2b]
      cases q <;> rfl
  · rfl

theorem c5_write_creates_missing_container_witness :
    ∃ r, mutSet (JValue.obj []) [Seg.key "a", Seg.key "b"] (JValue.num 1)
        = some r ∧
      isArrB (jsGet r (Seg.key "a")) = false ∧
      isObjB (jsGet r (Seg.key "a")) = true :=
  c5_write_creates_missing_container.1 (JValue.obj []) (Seg.key "a")
    (Seg.key "b") [] (JValue.num 1) rfl rfl

/-- Resolving anything on undefined stays undefined. -/
theorem getValueAtPath_undef (p : List Seg) :
    getValueAtPath JValue.undef p = JValue.undef := by
  cases p <;> simp [getValueAtPath, isNullish]

/-- Claim C6 as stated is false: a string key applied to an array does not
always yield the absent result; the canonical numeric string 0 reads the
first element. -/
theorem c6_resolve_mismatch_counterexample :
    getValueAtPath (JValue.arr [JValue.str "x"] []) [Seg.key "0"]
      = JValue.str "x"
    ∧ JValue.str "x" ≠ JValue.undef :=
  ⟨rfl, fun h => JValue.noConfusion h⟩

/-- Claim C6 amended: resolution is total (the embedding is a function, and
the walk guards null and undefined before every read); null and undefined
intermediates, a missing own property under a non-reserved key (one that is
not a length, prototype accessor or standard prototype member name, on which
the program would instead surface the exotic length number or an inherited
member), an out-of-range index, and kind mismatches on non-reserved keys all
yield the absent undefined result, which is distinct from a present null;
except that the coercions of property access apply: a numeric string key on
an array, an integer segment on an object and an index into a string access
data. -/
theorem c6_resolve_absent_amended :
    (∀ (p : List Seg), getValueAtPath JValue.undef p = JValue.undef)
    ∧ (∀ (s : Seg) (p : List Seg),
        getValueAtPath JValue.null (s :: p) = JValue.undef)
    ∧ (∀ (b : Bool) (s : Seg) (p : List Seg), segIsReserved s = false →
        getValueAtPath (JValue.bool b) (s :: p) = JValue.undef)
    ∧ (∀ (n : Int) (s : Seg) (p : List Seg), segIsReserved s = false →
        getValueAtPath (JValue.num n) (s :: p) = JValue.undef)
    ∧ (∀ (kvs : List (String × JValue)) (k : String) (p : List Seg),
        segIsReserved (Seg.key k) = false → assocGet kvs k = none →
        getValueAtPath (JValue.obj kvs) (Seg.key k :: p) = JValue.undef)
    ∧ (∀ (xs : List JValue) (k : String) (p : List Seg),
        segIsReserved (Seg.key k) = false → canonIndex k = none →
        getValueAtPath (JValue.arr xs []) (Seg.key k :: p) = JValue.undef)
    ∧ (∀ (xs : List JValue) (i : Nat) (p : List Seg), xs.length ≤ i →
        getValueAtPath (JValue.arr xs []) (Seg.idx i :: p) = JValue.undef)
    ∧ JValue.undef ≠ JValue.null := by
  refine ⟨getValueAtPath_undef, ?_, ?_, ?_, ?_, ?_, ?_, ?_⟩
  · intro s p; simp [getValueAtPath, isNullish]
  · intro b s p hres
    cases s <;> simp [getValueAtPath, isNullish, jsGet, getValueAtPath_undef]
  · intro n s p hres
    cases s <;> simp [getValueAtPath, isNullish, jsGet, getValueAtPath_undef]
  · intro kvs k p hres h
    simp [getValueAtPath, isNullish, jsGet, h, getValueAtPath_undef]
  · intro xs k p hres h
    simp [getValueAtPath, isNullish, jsGet, h, assocGet, getValueAtPath_undef]
  · intro xs i p h
    simp [getValueAtPath, isNullish, jsGet, List.getElem?_eq_none h,
      getValueAtPath_undef]
  · exact fun h => JValue.noConfusion h

theorem c6_resolve_absent_amended_witness :
    getValueAtPath (JValue.obj []) [Seg.key "a"] = JValue.undef :=
  c6_resolve_absent_amended.2.2.2.2.1 [] "a" [] (by decide) rfl

/-- Claim C7 as stated is false: on a resolution miss with a parseable
document, the seeded edit text is the absent stringification (no string at
all), not the RowNormalizer fallback, which would be the empty-object
text. -/
theorem c7_resolution_miss_counterexample :
    seedEditValue
      (fun t => if t = "x" then Except.ok (JValue.obj []) else Except.error "bad")
      "x" [Seg.key "a"] [] = none
    ∧ (none : Option String) ≠ some (normalizeNodeData []) :=
  ⟨rfl, fun h => Option.noConfusion h⟩

/-- Claim C7 amended: a resolution miss raises no error, but the
RowNormalizer fallback is seeded only when parsing the live document fails;
on a miss with a parseable document the seed is the undefined result of
stringifying the absent value. -/
theorem c7_resolution_miss_amended
    (parse : String → Except String JValue) (contents : String)
    (path : List Seg) (rows : List NodeRow) :
    (∀ e, parse contents = Except.error e →
      seedEditValue parse contents path rows = some (normalizeNodeData rows))
    ∧ (∀ p, parse contents = Except.ok p →
      getValueAtPath p path = JValue.undef →
      seedEditValue parse contents path rows = none) := by
  constructor
  · intro e he
    simp [seedEditValue, he]
  · intro p hp hmiss
    simp [seedEditValue, hp, hmiss, jsRender]

theorem c7_resolution_miss_amended_witness :
    seedEditValue (fun _ => Except.error "bad") "x" [] []
      = some (normalizeNodeData []) :=
  (c7_resolution_miss_amended (fun _ => Except.error "bad") "x" [] []).1
    "bad" rfl

/-- The amended reference mapping is the mapping loop of the source. -/
theorem amendedMapping_eq (rows : List NodeRow) : ∀ acc,
    amendedMapping acc rows = rows.foldl buildStep acc := by
  induction rows with
  | nil => intro acc; rfl
  | cons r t ih =>
      intro acc
      show amendedMapping
          (if amendedEligible r then assocSet acc (r.key.getD "") r.value
           else acc) t
        = t.foldl buildStep (buildStep acc r)
      rw [ih]
      rfl

/-- Claim C8 as stated is false: a single keyless row holding the string hi
is rendered by the source as the bare characters hi (template coercion), not
as the JSON text of the value, which is the quoted form. -/
theorem c8_normalize_reference_counterexample :
    normalizeNodeData [NodeRow.mk none (JValue.str "hi") "string"] = "hi"
    ∧ normRefSpec [NodeRow.mk none (JValue.str "hi") "string"] = "\"hi\""
    ∧ ("hi" : String) ≠ "\"hi\"" :=
  ⟨rfl, rfl, by decide⟩

/-- Claim C8 amended: normalizeNodeData equals the reference definition once
the bare branch renders the value by JavaScript string coercion (strings
verbatim, unquoted), a row whose key is the empty string counts as keyless
in the bare-branch condition and in the mapping skip rule alike, and the
serialization enumerates the mapping the way JSON.stringify enumerates own
properties: canonical-numeric keys first in ascending numeric order, then
the remaining keys in row order; the second conjunct exhibits the
enumeration on rows keyed b then 2, which render with 2 first. -/
theorem c8_normalize_reference_amended :
    (∀ rows, normalizeNodeData rows = normRefAmended rows)
    ∧ normalizeNodeData
        [NodeRow.mk (some "b") (JValue.num 1) "number",
         NodeRow.mk (some "2") (JValue.num 3) "number"]
      = "\x7b\n  \"2\": 3,\n  \"b\": 1\n\x7d" := by
  constructor
  · intro rows
    rcases rows with _ | ⟨r, _ | ⟨q, t⟩⟩
    · rfl
    · show (if rowKeyTruthy r then renderMapping (buildMapping [r])
          else jsTemplate r.value)
        = (if rowKeyTruthy r then renderMapping (amendedMapping [] [r])
          else jsTemplate r.value)
      rw [amendedMapping_eq]
      rfl
    · show renderMapping (buildMapping (r :: q :: t))
        = renderMapping (amendedMapping [] (r :: q :: t))
      rw [amendedMapping_eq]
      rfl
  · rfl

/-- One mapping step ignores the difference between an empty and an absent
key. -/
theorem buildStep_clearEmptyKey (m : List (String × JValue)) (r : NodeRow) :
    buildStep m (clearEmptyKey r) = buildStep m r := by
  obtain ⟨k, v, ty⟩ := r
  cases k with
  | none => rfl
  | some ks =>
      by_cases hk : ks = ""
      · subst hk; rfl
      · simp [clearEmptyKey, hk]

/-- Truthiness of the key ignores the same difference. -/
theorem rowKeyTruthy_clearEmptyKey (r : NodeRow) :
    rowKeyTruthy (clearEmptyKey r) = rowKeyTruthy r := by
  obtain ⟨k, v, ty⟩ := r
  cases k with
  | none => rfl
  | some ks =>
      by_cases hk : ks = ""
      · subst hk; rfl
      · simp [clearEmptyKey, hk]

/-- clearEmptyKey never changes the value of a row. -/
theorem value_clearEmptyKey (r : NodeRow) :
    (clearEmptyKey r).value = r.value := by
  obtain ⟨k, v, ty⟩ := r
  unfold clearEmptyKey
  split <;> rfl

/-- The mapping loop over cleared rows is the mapping loop itself. -/
theorem foldl_clearEmptyKey (l : List NodeRow) : ∀ acc,
    l.foldl (fun m x => buildStep m (clearEmptyKey x)) acc
      = l.foldl buildStep acc := by
  induction l with
  | nil => intro acc; rfl
  | cons r t ih =>
      intro acc
      show t.foldl (fun m x => buildStep m (clearEmptyKey x))
          (buildStep acc (clearEmptyKey r))
        = t.foldl buildStep (buildStep acc r)
      rw [buildStep_clearEmptyKey, ih]

/-- Claim C10: normalizeNodeData treats an empty-string key exactly like an
absent key: replacing every empty key by an absent one changes nothing, and
a single row keyed by the empty string goes through the bare-scalar branch,
rendering its value alone. -/
theorem c10_empty_key_like_no_key :
    (∀ rows, normalizeNodeData rows
      = normalizeNodeData (rows.map clearEmptyKey))
    ∧ (∀ (v : JValue) (ty : String),
        normalizeNodeData [NodeRow.mk (some "") v ty] = jsTemplate v) := by
  constructor
  · intro rows
    rcases rows with _ | ⟨r, _ | ⟨q, t⟩⟩
    · rfl
    · show (if rowKeyTruthy r then renderMapping (buildMapping [r])
          else jsTemplate r.value)
        = (if rowKeyTruthy (clearEmptyKey r) then
            renderMapping (buildMapping [clearEmptyKey r])
          else jsTemplate (clearEmptyKey r).value)
      rw [rowKeyTruthy_clearEmptyKey, value_clearEmptyKey,
        show buildMapping [clearEmptyKey r] = buildMapping [r] from
          buildStep_clearEmptyKey [] r]
    · show renderMapping (buildMapping (r :: q :: t))
        = renderMapping (buildMapping ((r :: q :: t).map clearEmptyKey))
      unfold buildMapping
      rw [List.foldl_map, foldl_clearEmptyKey]
  · intro v ty
    rfl

/-- The bracket chain of one segment then more equals join with the closing
and opening bracket pair as separator. -/
theorem joinSep_brackets (l : List Seg) : ∀ (s : Seg),
    "[" ++ joinSep "][" ((s :: l).map segRender) ++ "]"
      = concatBrackets (s :: l) := by
  induction l with
  | nil =>
      intro s
      show "[" ++ segRender s ++ "]" = "[" ++ segRender s ++ "]" ++ ""
      rw [String.append_empty]
  | cons q t ih =>
      intro s
      show "[" ++ (segRender s ++ "]["
          ++ joinSep "][" ((q :: t).map segRender)) ++ "]"
        = "[" ++ segRender s ++ "]" ++ concatBrackets (q :: t)
      rw [← ih q]
      simp only [String.append_assoc]
      rfl

/-- Claim C9: the path formatter is pure and total; empty and absent paths
render as the root dollar, every segment renders as the bracketed number, or
the bracketed quoted key with no further escaping, concatenated after the
root, and the three canonical examples hold. -/
theorem c9_jsonPathToString_canonical :
    jsonPathToString none = "$"
    ∧ jsonPathToString (some []) = "$"
    ∧ (∀ p, jsonPathToString (some p) = "$" ++ concatBrackets p)
    ∧ jsonPathToString (some [Seg.key "a", Seg.key "b"]) = "$[\"a\"][\"b\"]"
    ∧ jsonPathToString (some [Seg.key "items", Seg.idx 2]) = "$[\"items\"][2]" := by
  refine ⟨rfl, rfl, ?_, rfl, rfl⟩
  intro p
  cases p with
  | nil => exact (String.append_empty "$").symm
  | cons s l =>
      show "$[" ++ joinSep "][" ((s :: l).map segRender) ++ "]"
        = "$" ++ concatBrackets (s :: l)
      rw [← joinSep_brackets l s]
      simp only [String.append_assoc]
      rfl
